import Mathlib

/-! # Verification of the hydra-kratos-consent scope/claims engine

A shallow embedding of the scope-resolution engine: JSON values, RFC6901
pointers, the annotation scanner (`ImplicitScope.find`), the configuration
compiler (`ScopeConfig.from_root`), the claims resolver
(`ScopeConfig.resolve_all`), the serde-derived deserializers for the scope
configuration, and the schema cache (`SchemaCache.fetch`), together with
theorems about their behavior.
-/

namespace HKC

/-- JSON values (model of `serde_json::Value`; numbers collapsed to `Int`,
which is sufficient because the engine never computes with numbers). -/
inductive JValue : Type where
  | null : JValue
  | bool : Bool → JValue
  | num : Int → JValue
  | str : String → JValue
  | arr : List JValue → JValue
  | obj : List (String × JValue) → JValue

/-- Association-list lookup: first entry whose key matches (model of map
lookup on `serde_json::Map` / `IndexMap`, whose keys are unique). -/
def assocLookup {α β : Type} [DecidableEq α] (entries : List (α × β)) (key : α) : Option β :=
  match entries with
  | [] => none
  | (k, v) :: rest => if k = key then some v else assocLookup rest key

/-- Association-list insert with `IndexMap::insert` semantics: replace the
value at an existing key in place, otherwise append at the end. -/
def assocInsert {α β : Type} [DecidableEq α] (entries : List (α × β)) (key : α) (value : β) :
    List (α × β) :=
  match entries with
  | [] => [(key, value)]
  | (k, v) :: rest =>
    if k = key then (k, value) :: rest else (k, v) :: assocInsert rest key value

/-- Lookup inside a JSON object entry list. -/
def lookupJson (entries : List (String × JValue)) (key : String) : Option JValue :=
  assocLookup entries key

/-- `Scope` (src/schema.rs): an opaque string identifier. -/
structure Scope where
  val : String
  deriving DecidableEq, Repr

/-- A JSON pointer (model of `jsonptr::Pointer`): a list of reference tokens. -/
structure Pointer where
  tokens : List String
  deriving DecidableEq, Repr

/-- Decimal digit accumulation. -/
def digitsToNat (chars : List Char) (acc : Nat) : Nat :=
  match chars with
  | [] => acc
  | c :: rest => digitsToNat rest (acc * 10 + (c.toNat - 48))

/-- Array-index parsing for pointer resolution: digits only, no leading
zeros (RFC6901 array indexing as implemented by `jsonptr`). -/
def parseIndex (s : String) : Option Nat :=
  match s.data with
  | [] => none
  | c :: rest =>
    if (c :: rest).all Char.isDigit then
      if c = '0' ∧ rest ≠ [] then none
      else some (digitsToNat (c :: rest) 0)
    else none

/-- One step of pointer resolution: object key lookup or array indexing. -/
def resolveToken (value : JValue) (token : String) : Option JValue :=
  match value with
  | .obj entries => lookupJson entries token
  | .arr items =>
    match parseIndex token with
    | some index => items.get? index
    | none => none
  | _ => none

/-- `jsonptr::Pointer::resolve`: walk the document token by token; `none`
models the `Err` (unresolvable) outcome. -/
def Pointer.resolve (pointer : Pointer) (document : JValue) : Option JValue :=
  pointer.tokens.foldlM resolveToken document

/-- `SessionData` (src/schema.rs lines 55-59): the two optional claim names. -/
structure SessionData where
  id_token : Option String
  access_token : Option String
  deriving DecidableEq, Repr

/-- `TraitConfiguration` (src/schema.rs lines 61-64). -/
structure TraitConfiguration where
  scopes : List Scope
  deriving DecidableEq, Repr

/-- `Collect` (src/schema.rs lines 66-73). -/
inductive Collect : Type where
  | first
  | last
  | any
  | all
  deriving DecidableEq, Repr

/-- `ImplicitScope` (src/schema.rs lines 75-79). -/
structure ImplicitScope where
  collect : Collect
  session_data : SessionData
  deriving DecidableEq, Repr

/-- `ImplicitScopeCache` (src/cache.rs line 28): `IndexMap<Scope, Vec<Pointer>>`
modelled as an association list in insertion order. -/
structure ImplicitScopeCache where
  entries : List (Scope × List Pointer)
  deriving DecidableEq, Repr

/-- `ImplicitScopeCache::new`. -/
def ImplicitScopeCache.new : ImplicitScopeCache := ⟨[]⟩

/-- `ImplicitScopeCache::get`. -/
def ImplicitScopeCache.get (cache : ImplicitScopeCache) (scope : Scope) :
    Option (List Pointer) :=
  assocLookup cache.entries scope

/-- `self.0.entry(scope).or_default().extend(pointers)`: extend the pointer
list at an existing key in place, otherwise append a fresh entry. -/
def extendEntry (entries : List (Scope × List Pointer)) (scope : Scope)
    (pointers : List Pointer) : List (Scope × List Pointer) :=
  match entries with
  | [] => [(scope, pointers)]
  | (s, ps) :: rest =>
    if s = scope then (s, ps ++ pointers) :: rest
    else (s, ps) :: extendEntry rest scope pointers

/-- `ImplicitScopeCache::merge` (src/cache.rs lines 39-43). -/
def ImplicitScopeCache.merge (cache other : ImplicitScopeCache) : ImplicitScopeCache :=
  ⟨other.entries.foldl (fun acc e => extendEntry acc e.1 e.2) cache.entries⟩

/-- `ImplicitScopeCache::insert` (src/cache.rs lines 45-47). -/
def ImplicitScopeCache.insert (cache : ImplicitScopeCache) (scope : Scope)
    (pointer : Pointer) : ImplicitScopeCache :=
  ⟨extendEntry cache.entries scope [pointer]⟩

/-- The pointer list stored for a scope, defaulting to the empty list:
observation function used to state ordering properties. -/
def ImplicitScopeCache.getD (cache : ImplicitScopeCache) (scope : Scope) : List Pointer :=
  (cache.get scope).getD []

/-- `ScopeCache` (src/cache.rs lines 54-57). -/
structure ScopeCache where
  implicit_scopes : ImplicitScopeCache
  deriving DecidableEq, Repr

/-- `schemars::schema::SchemaObject`, restricted to the two components the
engine reads: `object.properties` (the declared properties, each with its
subschema) and `extensions` (the out-of-band keyword map). -/
inductive SchemaObject : Type where
  | mk : Option (List (String × SchemaObject)) → List (String × JValue) → SchemaObject

/-- The `object.properties` component. -/
def SchemaObject.object : SchemaObject → Option (List (String × SchemaObject))
  | .mk o _ => o

/-- The `extensions` component. -/
def SchemaObject.extensions : SchemaObject → List (String × JValue)
  | .mk _ e => e

/-- serde deserialization of `Scope` (newtype over `String`). -/
def parseScope (v : JValue) : Option Scope :=
  match v with
  | .str s => some ⟨s⟩
  | _ => none

/-- serde deserialization of `TraitConfiguration`: an object whose required
`scopes` field is an array of strings; unknown fields are ignored. -/
def parseTraitConfiguration (v : JValue) : Option TraitConfiguration :=
  match v with
  | .obj entries =>
    match lookupJson entries "scopes" with
    | some (.arr items) =>
      match items.mapM parseScope with
      | some scopes => some ⟨scopes⟩
      | none => none
    | _ => none
  | _ => none

mutual

/-- `ImplicitScope::find_object` (src/schema.rs lines 82-94): fold over the
declared properties, recursing with the path extended by the property name
and merging the results (accumulator form of the source's `for` loop). -/
def ImplicitScope.find_object (keyword : String)
    (properties : List (String × SchemaObject)) (path : List String)
    (pointers : ImplicitScopeCache) : ImplicitScopeCache :=
  match properties with
  | [] => pointers
  | (key, value) :: rest =>
    ImplicitScope.find_object keyword rest path
      (pointers.merge (ImplicitScope.find keyword value (path ++ [key])))

/-- `ImplicitScope::find` (src/schema.rs lines 99-130): merge the property
traversal first, then process this node's extension, inserting the current
path's pointer for every listed scope; a malformed extension contributes
nothing. -/
def ImplicitScope.find (keyword : String) (schema : SchemaObject)
    (path : List String) : ImplicitScopeCache :=
  match schema with
  | .mk object extensions =>
    let pointers :=
      match object with
      | some properties =>
        ImplicitScopeCache.new.merge
          (ImplicitScope.find_object keyword properties path ImplicitScopeCache.new)
      | none => ImplicitScopeCache.new
    match lookupJson extensions keyword with
    | some extension =>
      match parseTraitConfiguration extension with
      | some value =>
        value.scopes.foldl (fun acc scope => acc.insert scope ⟨path⟩) pointers
      | none => pointers
    | none => pointers

end

/-- `ScopeExplicitMapping` (src/schema.rs lines 184-198): the recursive
composite mapping (Object / Tuple / Path). -/
inductive ScopeExplicitMapping : Type where
  | object : List (String × ScopeExplicitMapping) → ScopeExplicitMapping
  | tuple : List ScopeExplicitMapping → ScopeExplicitMapping
  | path : Pointer → ScopeExplicitMapping

mutual

/-- `ScopeExplicitMapping::resolve` (src/schema.rs lines 201-234). -/
def ScopeExplicitMapping.resolve : ScopeExplicitMapping → JValue → JValue
  | .object properties, value => .obj (resolveProperties properties value)
  | .tuple items, value => .arr (resolveItems items value)
  | .path ref, value =>
    match ref.resolve value with
    | some v => v
    | none => .null

/-- The Object branch of `ScopeExplicitMapping::resolve`: each entry
independently resolved under its key. -/
def resolveProperties : List (String × ScopeExplicitMapping) → JValue →
    List (String × JValue)
  | [], _ => []
  | (key, mapping) :: rest, value =>
    (key, mapping.resolve value) :: resolveProperties rest value

/-- The Tuple branch of `ScopeExplicitMapping::resolve`: each item resolved
in order. -/
def resolveItems : List ScopeExplicitMapping → JValue → List JValue
  | [], _ => []
  | mapping :: rest, value => mapping.resolve value :: resolveItems rest value

end

/-- `ExplicitScope` (src/schema.rs lines 237-241). -/
structure ExplicitScope where
  mapping : ScopeExplicitMapping
  session_data : SessionData

/-- `ScopeConfiguration` (src/schema.rs lines 254-259). -/
inductive ScopeConfiguration : Type where
  | implicit : ImplicitScope → ScopeConfiguration
  | explicit : ExplicitScope → ScopeConfiguration

/-- `ScopeConfig` (src/schema.rs lines 261-264): `IndexMap<Scope,
ScopeConfiguration>` modelled as an association list in insertion order. -/
structure ScopeConfig where
  scopes : List (Scope × ScopeConfiguration)

/-- `Claims` (src/schema.rs lines 27-30). -/
structure Claims where
  id_token : JValue
  access_token : JValue

/-- `Claim` (src/schema.rs lines 33-37). -/
structure Claim where
  scope : Scope
  value : JValue
  session_data : SessionData

/-- `IncompleteClaim` (src/schema.rs lines 39-42). -/
structure IncompleteClaim where
  value : JValue
  session_data : SessionData

/-- `IncompleteClaim::complete` (src/schema.rs lines 44-53). -/
def IncompleteClaim.complete (claim : IncompleteClaim) (scope : Scope) : Claim :=
  ⟨scope, claim.value, claim.session_data⟩

/-- The `values` loop of `ImplicitScope::resolve` (src/schema.rs lines
147-158): push each successfully resolved value, skip (log-only) the
pointers that fail to resolve. -/
def resolveValues (pointers : List Pointer) (traits : JValue) : List JValue :=
  pointers.foldl
    (fun values pointer =>
      match pointer.resolve traits with
      | some value => values ++ [value]
      | none => values)
    []

/-- `ImplicitScope::resolve` (src/schema.rs lines 132-172). -/
def ImplicitScope.resolve (self : ImplicitScope) (scope : Scope) (traits : JValue)
    (cache : ScopeCache) : IncompleteClaim :=
  match cache.implicit_scopes.get scope with
  | none => ⟨.null, self.session_data⟩
  | some pointers =>
    let values := resolveValues pointers traits
    let value : JValue :=
      match self.collect with
      | .any | .first => values.head?.getD .null
      | .last => values.getLast?.getD .null
      | .all => .arr values
    ⟨value, self.session_data⟩

/-- `ExplicitScope::resolve` (src/schema.rs lines 243-252). -/
def ExplicitScope.resolve (self : ExplicitScope) (traits : JValue) : IncompleteClaim :=
  ⟨self.mapping.resolve traits, self.session_data⟩

/-- `ScopeConfig::empty` (src/schema.rs lines 267-271). -/
def ScopeConfig.empty : ScopeConfig := ⟨[]⟩

/-- `ScopeConfig::find_scope` (src/schema.rs lines 273-275). -/
def ScopeConfig.find_scope (config : ScopeConfig) (scope : Scope) :
    Option ScopeConfiguration :=
  assocLookup config.scopes scope

/-- `ScopeConfig::resolve` (src/schema.rs lines 278-301). -/
def ScopeConfig.resolve (config : ScopeConfig) (scope : Scope) (traits : JValue)
    (cache : ScopeCache) : Option Claim :=
  match config.find_scope scope with
  | none => none
  | some (.implicit implicit) => some ((implicit.resolve scope traits cache).complete scope)
  | some (.explicit explicit) => some ((explicit.resolve traits).complete scope)

/-- The claims-gathering loop of `ScopeConfig::resolve_all` (src/schema.rs
lines 310-320): iterate the plan's scopes in order, skip scopes absent from
the requested set, resolve the rest. -/
def collectClaims (config : ScopeConfig) (traits : JValue) (cache : ScopeCache)
    (requested : List Scope) : List Claim :=
  config.scopes.foldl
    (fun claims entry =>
      if entry.1 ∈ requested then
        match config.resolve entry.1 traits cache with
        | some claim => claims ++ [claim]
        | none => claims
      else claims)
    []

/-- The id_token pair stream of `ScopeConfig::resolve_all` (src/schema.rs
lines 322-331). -/
def idTokenPairs (config : ScopeConfig) (traits : JValue) (cache : ScopeCache)
    (requested : List Scope) : List (String × JValue) :=
  (collectClaims config traits cache requested).filterMap
    (fun claim => claim.session_data.id_token.map (fun name => (name, claim.value)))

/-- The access_token pair stream of `ScopeConfig::resolve_all` (src/schema.rs
lines 333-342). -/
def accessTokenPairs (config : ScopeConfig) (traits : JValue) (cache : ScopeCache)
    (requested : List Scope) : List (String × JValue) :=
  (collectClaims config traits cache requested).filterMap
    (fun claim => claim.session_data.access_token.map (fun name => (name, claim.value)))

/-- `collect()` of an iterator of pairs into a JSON map: repeated insert,
later pairs overwriting the value stored for an equal key. -/
def mapCollect (pairs : List (String × JValue)) : List (String × JValue) :=
  pairs.foldl (fun acc pair => assocInsert acc pair.1 pair.2) []

/-- `ScopeConfig::resolve_all` (src/schema.rs lines 304-348). -/
def ScopeConfig.resolve_all (config : ScopeConfig) (traits : JValue)
    (cache : ScopeCache) (requested : List Scope) : Claims :=
  ⟨.obj (mapCollect (idTokenPairs config traits cache requested)),
   .obj (mapCollect (accessTokenPairs config traits cache requested))⟩

/-- serde deserialization of `Collect`: the four camelCase variant names. -/
def parseCollect (v : JValue) : Option Collect :=
  match v with
  | .str "first" => some .first
  | .str "last" => some .last
  | .str "any" => some .any
  | .str "all" => some .all
  | _ => none

/-- serde deserialization of an `Option<String>` field value: `null` is
`None`, a string is `Some`, anything else is an error. -/
def parseOptionString (v : JValue) : Option (Option String) :=
  match v with
  | .null => some none
  | .str s => some (some s)
  | _ => none

/-- serde handling of one `Option<String>` struct field: a missing field
defaults to `None`; a present field must deserialize. -/
def parseOptionStringField (entries : List (String × JValue)) (key : String) :
    Option (Option String) :=
  match lookupJson entries key with
  | none => some none
  | some v => parseOptionString v

/-- serde deserialization of `SessionData`: a struct **without**
`rename_all`, so its fields are read from the snake_case keys `id_token`
and `access_token`. -/
def parseSessionData (v : JValue) : Option SessionData :=
  match v with
  | .obj entries =>
    match parseOptionStringField entries "id_token",
          parseOptionStringField entries "access_token" with
    | some idToken, some accessToken => some ⟨idToken, accessToken⟩
    | _, _ => none
  | _ => none

/-- serde deserialization of the fields of `ImplicitScope` (a struct without
`rename_all`): required fields `collect` and `session_data`. -/
def parseImplicitFields (entries : List (String × JValue)) : Option ImplicitScope :=
  match lookupJson entries "collect", lookupJson entries "session_data" with
  | some cv, some sv =>
    match parseCollect cv, parseSessionData sv with
    | some collect, some sessionData => some ⟨collect, sessionData⟩
    | _, _ => none
  | _, _ => none

/-- Split a character list at every `/`. -/
def splitOnSlash (chars : List Char) : List (List Char) :=
  match chars with
  | [] => [[]]
  | c :: rest =>
    if c = '/' then [] :: splitOnSlash rest
    else
      match splitOnSlash rest with
      | [] => [[c]]
      | t :: ts => (c :: t) :: ts

/-- RFC6901 token unescaping: `~1` decodes to `/` and `~0` to `~`. -/
def unescapeToken (chars : List Char) : List Char :=
  match chars with
  | '~' :: '1' :: rest => '/' :: unescapeToken rest
  | '~' :: '0' :: rest => '~' :: unescapeToken rest
  | c :: rest => c :: unescapeToken rest
  | [] => []

/-- serde deserialization of `Pointer` from an RFC6901 string: empty, or
`/`-separated tokens with `~1` and `~0` unescaped. -/
def parsePointerString (s : String) : Option Pointer :=
  match s.data with
  | [] => some ⟨[]⟩
  | c :: rest =>
    if c = '/' then
      some ⟨(splitOnSlash rest).map (fun t => String.mk (unescapeToken t))⟩
    else none

/-- serde deserialization of `ScopeExplicitMapping` (internally tagged by
`type`, camelCase variants; fields `properties`, `prefixItems`, `$ref`).
Recursion is bounded by a fuel argument; `parseMapping` below supplies
fuel sufficient for its input. -/
def parseMappingFuel : Nat → JValue → Option ScopeExplicitMapping
  | 0, _ => none
  | fuel + 1, v =>
    match v with
    | .obj entries =>
      match lookupJson entries "type" with
      | some (.str "object") =>
        match lookupJson entries "properties" with
        | some (.obj properties) =>
          match properties.mapM
              (fun e => (parseMappingFuel fuel e.2).map (fun m => (e.1, m))) with
          | some resolved => some (.object resolved)
          | none => none
        | _ => none
      | some (.str "tuple") =>
        match lookupJson entries "prefixItems" with
        | some (.arr items) =>
          match items.mapM (parseMappingFuel fuel) with
          | some resolved => some (.tuple resolved)
          | none => none
        | _ => none
      | some (.str "path") =>
        match lookupJson entries "$ref" with
        | some (.str s) =>
          match parsePointerString s with
          | some pointer => some (.path pointer)
          | none => none
        | _ => none
      | _ => none
    | _ => none

mutual

/-- Nesting depth of a JSON value: fuel measure for `parseMappingFuel`. -/
def jvalueDepth : JValue → Nat
  | .null => 1
  | .bool _ => 1
  | .num _ => 1
  | .str _ => 1
  | .arr items => 1 + jvalueListDepth items
  | .obj entries => 1 + jvalueEntriesDepth entries

/-- Depth of a list of JSON values. -/
def jvalueListDepth : List JValue → Nat
  | [] => 0
  | v :: rest => max (jvalueDepth v) (jvalueListDepth rest)

/-- Depth of a list of JSON object entries. -/
def jvalueEntriesDepth : List (String × JValue) → Nat
  | [] => 0
  | e :: rest => max (jvalueDepth e.2) (jvalueEntriesDepth rest)

end

/-- serde deserialization of `ScopeExplicitMapping`; the depth of the input
bounds the recursion, so the fuel never runs out. -/
def parseMapping (v : JValue) : Option ScopeExplicitMapping :=
  parseMappingFuel (jvalueDepth v) v

/-- serde deserialization of the fields of `ExplicitScope` (a struct without
`rename_all`): required fields `mapping` and `session_data`. -/
def parseExplicitFields (entries : List (String × JValue)) : Option ExplicitScope :=
  match lookupJson entries "mapping", lookupJson entries "session_data" with
  | some mv, some sv =>
    match parseMapping mv, parseSessionData sv with
    | some mapping, some sessionData => some ⟨mapping, sessionData⟩
    | _, _ => none
  | _, _ => none

/-- serde deserialization of `ScopeConfiguration` (internally tagged by
`type`, camelCase variant names `implicit` and `explicit`). -/
def parseScopeConfiguration (v : JValue) : Option ScopeConfiguration :=
  match v with
  | .obj entries =>
    match lookupJson entries "type" with
    | some (.str "implicit") =>
      match parseImplicitFields entries with
      | some implicit => some (.implicit implicit)
      | none => none
    | some (.str "explicit") =>
      match parseExplicitFields entries with
      | some explicit => some (.explicit explicit)
      | none => none
    | _ => none
  | _ => none

/-- serde deserialization of `ScopeConfig`: required field `scopes`, an
object mapping scope names to scope rules. -/
def parseScopeConfig (v : JValue) : Option ScopeConfig :=
  match v with
  | .obj entries =>
    match lookupJson entries "scopes" with
    | some (.obj scopeEntries) =>
      match scopeEntries.mapM
          (fun e => (parseScopeConfiguration e.2).map (fun r => (Scope.mk e.1, r))) with
      | some scopes => some ⟨scopes⟩
      | none => none
    | _ => none
  | _ => none

/-- `ScopeConfig::create` (src/schema.rs lines 403-418): parse the root
extension stored under the keyword; absent or malformed yields the empty
plan. -/
def ScopeConfig.create (keyword : String) (schema : SchemaObject) : ScopeConfig :=
  match lookupJson schema.extensions keyword with
  | none => ScopeConfig.empty
  | some value =>
    match parseScopeConfig value with
    | some this => this
    | none => ScopeConfig.empty

/-- `ScopeConfig::insert_implicit_mapping` (src/schema.rs lines 352-371):
for every scope of the implicit index not already in the plan, insert an
Implicit rule with `Collect::First` and the scope's own name as both claim
names; existing entries are never overwritten. -/
def ScopeConfig.insert_implicit_mapping (config : ScopeConfig) (cache : ScopeCache) :
    ScopeConfig :=
  ⟨cache.implicit_scopes.entries.foldl
    (fun scopes entry =>
      if (assocLookup scopes entry.1).isSome then scopes
      else
        assocInsert scopes entry.1
          (.implicit ⟨.first, ⟨some entry.1.val, some entry.1.val⟩⟩))
    config.scopes⟩

/-- `ScopeConfig::insert_direct_mapping` (src/schema.rs lines 375-401): for
every first-level property not already a scope in the plan, insert an
Implicit `Collect::First` rule and register the single-token pointer for
that property in the implicit index; existing entries are never
overwritten. -/
def ScopeConfig.insert_direct_mapping (config : ScopeConfig) (schema : SchemaObject)
    (cache : ScopeCache) : ScopeConfig × ScopeCache :=
  match schema.object with
  | none => (config, cache)
  | some properties =>
    properties.foldl
      (fun state entry =>
        let scope : Scope := ⟨entry.1⟩
        if (assocLookup state.1.scopes scope).isSome then state
        else
          (⟨assocInsert state.1.scopes scope
              (.implicit ⟨.first, ⟨some entry.1, some entry.1⟩⟩)⟩,
           ⟨state.2.implicit_scopes.insert scope ⟨[entry.1]⟩⟩))
      (config, cache)

/-- `ScopeConfig::from_root` (src/schema.rs lines 420-434): parse the
declared configuration, run the implicit-index default pass, then (when
enabled) the direct-mapping default pass. Returns the plan together with
the (possibly extended) scope cache. -/
def ScopeConfig.from_root (keyword : String) (schema : SchemaObject)
    (cache : ScopeCache) (direct_mapping : Bool) : ScopeConfig × ScopeCache :=
  let this := ScopeConfig.create keyword schema
  let this := this.insert_implicit_mapping cache
  if direct_mapping then this.insert_direct_mapping schema cache
  else (this, cache)

/-- `SchemaId` (src/cache.rs lines 14-25). -/
structure SchemaId where
  val : String
  deriving DecidableEq, Repr

/-- `Schema` (src/cache.rs lines 65-70): a compiled (scope cache, scope
plan) pair. -/
structure Schema where
  cache : ScopeCache
  config : ScopeConfig

/-- `validate::Error` (src/validate.rs lines 14-24). -/
inductive FetchError : Type where
  | kratos
  | identitySchemaMalformed
  | serde
  | io
  deriving DecidableEq, Repr

/-- The `SchemaCache` map contents (src/cache.rs line 82): `IndexMap<SchemaId,
Arc<Schema>>` modelled as an association list. -/
def SchemaCacheData : Type := List (SchemaId × Schema)

/-- `SchemaCache::insert` (src/cache.rs lines 94-98). -/
def SchemaCache.insert (data : SchemaCacheData) (id : SchemaId) (schema : Schema) :
    SchemaCacheData :=
  assocInsert data id schema

/-- `SchemaCache::contains_key` (src/cache.rs lines 100-104). -/
def SchemaCache.contains_key (data : SchemaCacheData) (id : SchemaId) : Bool :=
  (assocLookup data id).isSome

/-- `SchemaCache::get_or_panic` (src/cache.rs lines 112-116); only invoked
on keys that are present, so the default value is never observed. -/
def SchemaCache.get_or_panic (data : SchemaCacheData) (id : SchemaId) : Schema :=
  (assocLookup data id).getD ⟨⟨⟨[]⟩⟩, ⟨[]⟩⟩

/-- `SchemaCache::fetch` (src/cache.rs lines 118-133): return the stored
schema on a hit; on a miss invoke the external fetch-and-compile function,
store its result under the id, and return the stored value. -/
def SchemaCache.fetch (data : SchemaCacheData)
    (fetch_fn : SchemaId → Except FetchError (ScopeCache × ScopeConfig))
    (id : SchemaId) : Except FetchError Schema × SchemaCacheData :=
  if SchemaCache.contains_key data id then
    (.ok (SchemaCache.get_or_panic data id), data)
  else
    match fetch_fn id with
    | .error e => (.error e, data)
    | .ok (cache, config) =>
      let data := SchemaCache.insert data id ⟨cache, config⟩
      (.ok (SchemaCache.get_or_panic data id), data)

/-- The entry list of a JSON object value (empty for non-objects):
observation function for stating properties of the output claim maps. -/
def jsonEntries : JValue → List (String × JValue)
  | .obj entries => entries
  | _ => []

/-- The pointers contributed to a scope by the extension stored at a node
itself: one copy of the current path's pointer per occurrence of the scope
in the parsed trait configuration, nothing when the extension is absent or
malformed. -/
def extension_contribution (keyword : String) (schema : SchemaObject)
    (path : List String) (scope : Scope) : List Pointer :=
  match lookupJson schema.extensions keyword with
  | some extension =>
    match parseTraitConfiguration extension with
    | some value =>
      (value.scopes.filter (fun sc => decide (sc = scope))).map (fun _ => ⟨path⟩)
    | none => []
  | none => []

/-- The implicit index contributed by descending into a node's declared
properties (the state of `pointers` in `ImplicitScope::find` just before
the node's own extension is processed). -/
def object_contribution (keyword : String) (schema : SchemaObject)
    (path : List String) : ImplicitScopeCache :=
  match schema.object with
  | some properties =>
    ImplicitScopeCache.new.merge
      (ImplicitScope.find_object keyword properties path ImplicitScopeCache.new)
  | none => ImplicitScopeCache.new

/-- `schema` with the extension stored under `keyword` removed: the
comparison point for the malformed-extension contract. -/
def removeExtension (keyword : String) (schema : SchemaObject) : SchemaObject :=
  match schema with
  | .mk object extensions =>
    .mk object (extensions.filter (fun e => !decide (e.1 = keyword)))

/-! ## Association-list lemmas -/

theorem assocLookup_assocInsert_self {α β : Type} [DecidableEq α]
    (l : List (α × β)) (k : α) (v : β) :
    assocLookup (assocInsert l k v) k = some v := by
  induction l with
  | nil => simp [assocInsert, assocLookup]
  | cons e rest ih =>
    obtain ⟨k', v'⟩ := e
    by_cases h : k' = k
    · subst h; simp [assocInsert, assocLookup]
    · simp [assocInsert, assocLookup, h, ih]

theorem assocLookup_assocInsert_ne {α β : Type} [DecidableEq α]
    (l : List (α × β)) (k k' : α) (v : β) (h : k' ≠ k) :
    assocLookup (assocInsert l k v) k' = assocLookup l k' := by
  have hne : ¬k = k' := fun he => h he.symm
  induction l with
  | nil => simp [assocInsert, assocLookup, hne]
  | cons e rest ih =>
    obtain ⟨k'', v''⟩ := e
    by_cases hk : k'' = k
    · subst hk
      simp [assocInsert, assocLookup, hne]
    · simp [assocInsert, assocLookup, hk, ih]

theorem assocLookup_extendEntry_self (l : List (Scope × List Pointer)) (s : Scope)
    (ps : List Pointer) :
    assocLookup (extendEntry l s ps) s = some ((assocLookup l s).getD [] ++ ps) := by
  induction l with
  | nil => simp [extendEntry, assocLookup]
  | cons e rest ih =>
    obtain ⟨s', ps'⟩ := e
    by_cases h : s' = s
    · subst h; simp [extendEntry, assocLookup]
    · simp [extendEntry, assocLookup, h, ih]

theorem assocLookup_extendEntry_ne (l : List (Scope × List Pointer)) (s s' : Scope)
    (ps : List Pointer) (h : s' ≠ s) :
    assocLookup (extendEntry l s ps) s' = assocLookup l s' := by
  have hne : ¬s = s' := fun he => h he.symm
  induction l with
  | nil => simp [extendEntry, assocLookup, hne]
  | cons e rest ih =>
    obtain ⟨s'', ps''⟩ := e
    by_cases hk : s'' = s
    · subst hk
      simp [extendEntry, assocLookup, hne]
    · simp [extendEntry, assocLookup, hk, ih]

theorem getD_extendEntry (l : List (Scope × List Pointer)) (s s' : Scope)
    (ps : List Pointer) :
    (assocLookup (extendEntry l s ps) s').getD [] =
      (assocLookup l s').getD [] ++ (if s' = s then ps else []) := by
  by_cases h : s' = s
  · subst h; rw [assocLookup_extendEntry_self]; simp
  · rw [assocLookup_extendEntry_ne l s s' ps h]; simp [h]

theorem getD_foldl_extendEntry (entries : List (Scope × List Pointer)) (s : Scope) :
    ∀ acc : List (Scope × List Pointer),
      (assocLookup (entries.foldl (fun a e => extendEntry a e.1 e.2) acc) s).getD [] =
        (assocLookup acc s).getD [] ++
          ((entries.filter (fun e => decide (e.1 = s))).map Prod.snd).flatten := by
  induction entries with
  | nil => intro acc; simp
  | cons e rest ih =>
    intro acc
    obtain ⟨s', ps'⟩ := e
    by_cases h : s' = s
    · subst h
      simp only [List.foldl_cons, ih, getD_extendEntry, if_pos rfl, List.filter_cons,
        decide_eq_true_eq]
      simp [List.append_assoc]
    · have hne : ¬s = s' := fun he => h he.symm
      simp only [List.foldl_cons, ih, getD_extendEntry, if_neg hne, List.filter_cons]
      simp [h]

theorem assocLookup_eq_none_of_not_mem_keys (l : List (Scope × List Pointer)) (s : Scope)
    (h : s ∉ l.map Prod.fst) : assocLookup l s = none := by
  induction l with
  | nil => rfl
  | cons e rest ih =>
    simp only [List.map_cons, List.mem_cons, not_or] at h
    obtain ⟨s', ps'⟩ := e
    simp only [assocLookup, if_neg (fun he : s' = s => h.1 (by simp [he]))]
    exact ih h.2

theorem filter_join_eq_getD_of_nodup (l : List (Scope × List Pointer)) (s : Scope)
    (hl : (l.map Prod.fst).Nodup) :
    ((l.filter (fun e => decide (e.1 = s))).map Prod.snd).flatten =
      (assocLookup l s).getD [] := by
  induction l with
  | nil => simp [assocLookup]
  | cons e rest ih =>
    obtain ⟨s', ps'⟩ := e
    simp only [List.map_cons, List.nodup_cons] at hl
    by_cases h : s' = s
    · subst h
      have hrest : assocLookup rest s' = none :=
        assocLookup_eq_none_of_not_mem_keys rest s' hl.1
      have hfil : rest.filter (fun e => decide (e.1 = s')) = [] := by
        apply List.filter_eq_nil_iff.mpr
        intro e he hes
        exact hl.1 (by simp only [decide_eq_true_eq] at hes; simpa [hes] using
          List.mem_map_of_mem Prod.fst he)
      simp [List.filter_cons, hfil, assocLookup]
    · simp only [List.filter_cons, decide_eq_true_eq, if_neg h, assocLookup,
        if_neg h]
      exact ih hl.2

/-- C6: merging two implicit indices maps every scope to the pointer list of
the left index followed by the pointer list of the right index, dropping no
pointer and preserving order. -/
theorem c6_merge_appends (A B : ImplicitScopeCache)
    (hB : (B.entries.map Prod.fst).Nodup) (scope : Scope) :
    (A.merge B).getD scope = A.getD scope ++ B.getD scope := by
  show (assocLookup (ImplicitScopeCache.merge A B).entries scope).getD [] = _
  unfold ImplicitScopeCache.merge
  rw [getD_foldl_extendEntry B.entries scope A.entries,
    filter_join_eq_getD_of_nodup B.entries scope hB]
  rfl

/-- C6 witness: the merge law evaluated at a concrete pair of indices. -/
theorem c6_merge_appends_witness :
    (((⟨[(⟨"a"⟩, [⟨["q"]⟩]), (⟨"b"⟩, [⟨["r"]⟩])]⟩ : ImplicitScopeCache).entries.map
        Prod.fst).Nodup) ∧
      (ImplicitScopeCache.merge ⟨[(⟨"a"⟩, [⟨["p"]⟩])]⟩
          ⟨[(⟨"a"⟩, [⟨["q"]⟩]), (⟨"b"⟩, [⟨["r"]⟩])]⟩).getD ⟨"a"⟩ =
        (⟨[(⟨"a"⟩, [⟨["p"]⟩])]⟩ : ImplicitScopeCache).getD ⟨"a"⟩ ++
          (⟨[(⟨"a"⟩, [⟨["q"]⟩]), (⟨"b"⟩, [⟨["r"]⟩])]⟩ : ImplicitScopeCache).getD ⟨"a"⟩ :=
  ⟨by decide,
   c6_merge_appends ⟨[(⟨"a"⟩, [⟨["p"]⟩])]⟩
     ⟨[(⟨"a"⟩, [⟨["q"]⟩]), (⟨"b"⟩, [⟨["r"]⟩])]⟩ (by decide) ⟨"a"⟩⟩

/-! ## Collect-policy semantics (C1, C8) -/

theorem resolveValues_eq_filterMap (pointers : List Pointer) (traits : JValue) :
    resolveValues pointers traits = pointers.filterMap (fun p => p.resolve traits) := by
  suffices h : ∀ acc : List JValue,
      pointers.foldl
        (fun values pointer =>
          match pointer.resolve traits with
          | some value => values ++ [value]
          | none => values)
        acc = acc ++ pointers.filterMap (fun p => p.resolve traits) by
    simpa [resolveValues] using h []
  induction pointers with
  | nil => intro acc; simp
  | cons p rest ih =>
    intro acc
    cases hp : p.resolve traits <;>
      simp [List.filterMap_cons, hp, ih]

/-- C1: for an implicit rule whose scope has a pointer list in the implicit
index, the collect policy combines the surviving resolved values as: First
and Any yield the first surviving value (null when none survive); Last
yields the last surviving value (null when none); All yields the JSON array
of all surviving values in order. -/
theorem c1_collect_policy (self : ImplicitScope) (scope : Scope) (traits : JValue)
    (cache : ScopeCache) (pointers : List Pointer)
    (h : cache.implicit_scopes.get scope = some pointers) :
    ((self.collect = .first ∨ self.collect = .any) →
        (self.resolve scope traits cache).value =
          ((pointers.filterMap (fun p => p.resolve traits)).head?).getD .null)
    ∧ (self.collect = .last →
        (self.resolve scope traits cache).value =
          ((pointers.filterMap (fun p => p.resolve traits)).getLast?).getD .null)
    ∧ (self.collect = .all →
        (self.resolve scope traits cache).value =
          .arr (pointers.filterMap (fun p => p.resolve traits))) := by
  unfold ImplicitScope.resolve
  rw [h]
  refine ⟨?_, ?_, ?_⟩
  · rintro (hc | hc) <;> simp [hc, resolveValues_eq_filterMap]
  · intro hc; simp [hc, resolveValues_eq_filterMap]
  · intro hc; simp [hc, resolveValues_eq_filterMap]

/-- C1 witness: the three collect policies evaluated on a concrete index and
trait document. -/
theorem c1_collect_policy_witness :
    ((⟨⟨[(⟨"s"⟩, [⟨["x"]⟩, ⟨["y"]⟩, ⟨["z"]⟩])]⟩⟩ : ScopeCache).implicit_scopes.get ⟨"s"⟩ =
        some [⟨["x"]⟩, ⟨["y"]⟩, ⟨["z"]⟩]) ∧
      ((Collect.first = .first ∨ Collect.first = .any) ∧
        (ImplicitScope.resolve ⟨.first, ⟨none, none⟩⟩ ⟨"s"⟩
            (.obj [("x", .num 1), ("z", .num 3)])
            ⟨⟨[(⟨"s"⟩, [⟨["x"]⟩, ⟨["y"]⟩, ⟨["z"]⟩])]⟩⟩).value =
          ((([⟨["x"]⟩, ⟨["y"]⟩, ⟨["z"]⟩] : List Pointer).filterMap
              (fun p => p.resolve (.obj [("x", .num 1), ("z", .num 3)]))).head?).getD
            .null) :=
  ⟨rfl,
   Or.inl rfl,
   (c1_collect_policy ⟨.first, ⟨none, none⟩⟩ ⟨"s"⟩ (.obj [("x", .num 1), ("z", .num 3)])
       ⟨⟨[(⟨"s"⟩, [⟨["x"]⟩, ⟨["y"]⟩, ⟨["z"]⟩])]⟩⟩ [⟨["x"]⟩, ⟨["y"]⟩, ⟨["z"]⟩] rfl).1
     (Or.inl rfl)⟩

/-- C8: an implicit rule for a scope with no entry in the implicit index
resolves (non-fatally) to null, and otherwise the pointers are resolved in
list order with the failing pointers discarded from the surviving-value
list (so a failing pointer is simply omitted, contributing null only via
the empty-list case of the collect policies). -/
theorem c8_missing_and_discard (self : ImplicitScope) (scope : Scope)
    (traits : JValue) (cache : ScopeCache) :
    (cache.implicit_scopes.get scope = none →
        (self.resolve scope traits cache).value = .null)
    ∧ ∀ pointers : List Pointer,
        resolveValues pointers traits = pointers.filterMap (fun p => p.resolve traits) := by
  constructor
  · intro h
    unfold ImplicitScope.resolve
    rw [h]
  · intro pointers
    exact resolveValues_eq_filterMap pointers traits

/-- C8 witness: a scope absent from the index resolves to null, and a
failing pointer is dropped from the surviving values, on concrete inputs. -/
theorem c8_missing_and_discard_witness :
    ((⟨⟨[(⟨"s"⟩, [⟨["x"]⟩])]⟩⟩ : ScopeCache).implicit_scopes.get ⟨"missing"⟩ = none) ∧
      (ImplicitScope.resolve ⟨.first, ⟨none, none⟩⟩ ⟨"missing"⟩ (.obj [])
          ⟨⟨[(⟨"s"⟩, [⟨["x"]⟩])]⟩⟩).value = .null ∧
      resolveValues [⟨["x"]⟩, ⟨["gone"]⟩] (.obj [("x", .num 1)]) =
        ([⟨["x"]⟩, ⟨["gone"]⟩] : List Pointer).filterMap
          (fun p => p.resolve (.obj [("x", .num 1)])) :=
  ⟨rfl,
   (c8_missing_and_discard ⟨.first, ⟨none, none⟩⟩ ⟨"missing"⟩ (.obj [])
       ⟨⟨[(⟨"s"⟩, [⟨["x"]⟩])]⟩⟩).1 rfl,
   (c8_missing_and_discard ⟨.first, ⟨none, none⟩⟩ ⟨"missing"⟩ (.obj [("x", .num 1)])
       ⟨⟨[(⟨"s"⟩, [⟨["x"]⟩])]⟩⟩).2 [⟨["x"]⟩, ⟨["gone"]⟩]⟩

/-! ## Requested-scope filtering (C5) -/

theorem scope_of_resolve (config : ScopeConfig) (s : Scope) (traits : JValue)
    (cache : ScopeCache) (claim : Claim)
    (h : config.resolve s traits cache = some claim) : claim.scope = s := by
  unfold ScopeConfig.resolve at h
  rcases hf : config.find_scope s with _ | rule
  · rw [hf] at h; exact absurd h (by simp)
  · rw [hf] at h
    cases rule with
    | implicit i =>
      have he := Option.some.inj h
      rw [← he]
      rfl
    | explicit e =>
      have he := Option.some.inj h
      rw [← he]
      rfl

theorem mem_collectClaims_scope (config : ScopeConfig) (traits : JValue)
    (cache : ScopeCache) (requested : List Scope) :
    ∀ (l : List (Scope × ScopeConfiguration)) (acc : List Claim) (claim : Claim),
      claim ∈ l.foldl
        (fun claims entry =>
          if entry.1 ∈ requested then
            match config.resolve entry.1 traits cache with
            | some c => claims ++ [c]
            | none => claims
          else claims)
        acc →
      claim ∈ acc ∨ claim.scope ∈ requested := by
  intro l
  induction l with
  | nil => intro acc claim h; exact Or.inl h
  | cons e rest ih =>
    intro acc claim h
    rcases ih _ claim h with hmem | hreq
    · by_cases hr : e.1 ∈ requested
      · simp only [if_pos hr] at hmem
        rcases hres : config.resolve e.1 traits cache with _ | c <;>
          simp only [hres] at hmem
        · exact Or.inl hmem
        · rcases List.mem_append.mp hmem with hacc | hnew
          · exact Or.inl hacc
          · right
            have hc : claim = c := List.mem_singleton.mp hnew
            rw [hc, scope_of_resolve config e.1 traits cache c hres]
            exact hr
      · simp only [if_neg hr] at hmem
        exact Or.inl hmem
    · exact Or.inr hreq

theorem collectClaims_nil_requested (config : ScopeConfig) (traits : JValue)
    (cache : ScopeCache) :
    collectClaims config traits cache [] = [] := by
  unfold collectClaims
  generalize config.scopes = l
  suffices h : ∀ acc : List Claim,
      l.foldl
        (fun claims entry =>
          if entry.1 ∈ ([] : List Scope) then
            match config.resolve entry.1 traits cache with
            | some c => claims ++ [c]
            | none => claims
          else claims)
        acc = acc from h []
  induction l with
  | nil => intro acc; rfl
  | cons e rest ih =>
    intro acc
    rw [List.foldl_cons, ih]
    simp

/-- C5: `resolve_all` only gathers claims for scopes that are members of the
requested set, and for the empty requested set the output is a pair of
empty JSON objects regardless of the plan's contents. -/
theorem c5_requested_filtering (config : ScopeConfig) (traits : JValue)
    (cache : ScopeCache) (requested : List Scope) :
    (∀ claim ∈ collectClaims config traits cache requested, claim.scope ∈ requested)
    ∧ config.resolve_all traits cache [] = ⟨.obj [], .obj []⟩ := by
  constructor
  · intro claim h
    rcases mem_collectClaims_scope config traits cache requested config.scopes [] claim h with
      hmem | hreq
    · exact absurd hmem (List.not_mem_nil claim)
    · exact hreq
  · unfold ScopeConfig.resolve_all idTokenPairs accessTokenPairs
    rw [collectClaims_nil_requested]
    rfl

/-- C5 witness: a concrete plan with two scopes of which only one is
requested; the gathered claim's scope is a member of the requested set. -/
theorem c5_requested_filtering_witness :
    ((⟨⟨"email"⟩, JValue.str "a", ⟨some "email", some "email"⟩⟩ : Claim) ∈
        collectClaims
          ⟨[(⟨"email"⟩, .implicit ⟨.first, ⟨some "email", some "email"⟩⟩),
            (⟨"age"⟩, .implicit ⟨.first, ⟨some "age", some "age"⟩⟩)]⟩
          (.obj [("email", .str "a")])
          ⟨⟨[(⟨"email"⟩, [⟨["email"]⟩])]⟩⟩
          [⟨"email"⟩]) ∧
      (⟨⟨"email"⟩, JValue.str "a", ⟨some "email", some "email"⟩⟩ : Claim).scope ∈
        [(⟨"email"⟩ : Scope)] :=
  ⟨by
    show _ ∈ collectClaims _ _ _ _
    have : collectClaims
        ⟨[(⟨"email"⟩, .implicit ⟨.first, ⟨some "email", some "email"⟩⟩),
          (⟨"age"⟩, .implicit ⟨.first, ⟨some "age", some "age"⟩⟩)]⟩
        (.obj [("email", .str "a")])
        ⟨⟨[(⟨"email"⟩, [⟨["email"]⟩])]⟩⟩
        [⟨"email"⟩] =
        [⟨⟨"email"⟩, JValue.str "a", ⟨some "email", some "email"⟩⟩] := rfl
    rw [this]
    exact List.mem_singleton_self _,
   (c5_requested_filtering
       ⟨[(⟨"email"⟩, .implicit ⟨.first, ⟨some "email", some "email"⟩⟩),
         (⟨"age"⟩, .implicit ⟨.first, ⟨some "age", some "age"⟩⟩)]⟩
       (.obj [("email", .str "a")])
       ⟨⟨[(⟨"email"⟩, [⟨["email"]⟩])]⟩⟩
       [⟨"email"⟩]).1
     ⟨⟨"email"⟩, JValue.str "a", ⟨some "email", some "email"⟩⟩
     (by
       have : collectClaims
           ⟨[(⟨"email"⟩, .implicit ⟨.first, ⟨some "email", some "email"⟩⟩),
             (⟨"age"⟩, .implicit ⟨.first, ⟨some "age", some "age"⟩⟩)]⟩
           (.obj [("email", .str "a")])
           ⟨⟨[(⟨"email"⟩, [⟨["email"]⟩])]⟩⟩
           [⟨"email"⟩] =
           [⟨⟨"email"⟩, JValue.str "a", ⟨some "email", some "email"⟩⟩] := rfl
       rw [this]
       exact List.mem_singleton_self _)⟩

/-! ## Later insertions overwrite earlier ones (C10) -/

theorem assocLookup_foldl_assocInsert (pairs : List (String × JValue)) (name : String) :
    ∀ acc : List (String × JValue),
      assocLookup (pairs.foldl (fun a p => assocInsert a p.1 p.2) acc) name =
        match (pairs.filter (fun p => decide (p.1 = name))).getLast? with
        | some p => some p.2
        | none => assocLookup acc name := by
  induction pairs using List.reverseRecOn with
  | nil => intro acc; rfl
  | append_singleton l p ih =>
    intro acc
    rw [List.foldl_append, List.foldl_cons, List.foldl_nil, List.filter_append]
    by_cases h : p.1 = name
    · rw [h, assocLookup_assocInsert_self]
      have hfil : List.filter (fun p => decide (p.1 = name)) [p] = [p] := by
        simp [List.filter_cons, h]
      rw [hfil, List.getLast?_concat]
    · rw [assocLookup_assocInsert_ne _ _ _ _ (fun he => h he.symm)]
      have hfil : List.filter (fun p => decide (p.1 = name)) [p] = [] := by
        simp [List.filter_cons, h]
      rw [hfil, List.append_nil]
      exact ih acc

theorem assocLookup_mapCollect (pairs : List (String × JValue)) (name : String) :
    assocLookup (mapCollect pairs) name =
      ((pairs.filter (fun p => decide (p.1 = name))).getLast?).map Prod.snd := by
  unfold mapCollect
  rw [assocLookup_foldl_assocInsert]
  rcases hlast : (pairs.filter (fun p => decide (p.1 = name))).getLast? with _ | p <;>
    rw [hlast] <;> rfl

theorem mem_keys_assocInsert {α β : Type} [DecidableEq α] (l : List (α × β))
    (k : α) (v : β) (x : α) :
    x ∈ (assocInsert l k v).map Prod.fst ↔ x ∈ l.map Prod.fst ∨ x = k := by
  induction l with
  | nil => simp [assocInsert]
  | cons e rest ih =>
    obtain ⟨k', v'⟩ := e
    by_cases h : k' = k
    · simp only [assocInsert, if_pos h, List.map_cons, List.mem_cons]
      subst h
      tauto
    · simp only [assocInsert, if_neg h, List.map_cons, List.mem_cons, ih]
      tauto

theorem nodup_keys_assocInsert {α β : Type} [DecidableEq α] (l : List (α × β))
    (k : α) (v : β) (h : (l.map Prod.fst).Nodup) :
    ((assocInsert l k v).map Prod.fst).Nodup := by
  induction l with
  | nil => simp [assocInsert]
  | cons e rest ih =>
    obtain ⟨k', v'⟩ := e
    simp only [List.map_cons, List.nodup_cons] at h
    by_cases hk : k' = k
    · subst hk
      simpa [assocInsert, List.nodup_cons] using h
    · simp only [assocInsert, if_neg hk, List.map_cons, List.nodup_cons]
      refine ⟨?_, ih h.2⟩
      intro hmem
      rcases (mem_keys_assocInsert rest k v k').mp hmem with hx | hx
      · exact h.1 hx
      · exact hk hx

theorem nodup_keys_mapCollect (pairs : List (String × JValue)) :
    ((mapCollect pairs).map Prod.fst).Nodup := by
  unfold mapCollect
  suffices h : ∀ acc : List (String × JValue), (acc.map Prod.fst).Nodup →
      ((pairs.foldl (fun a p => assocInsert a p.1 p.2) acc).map Prod.fst).Nodup from
    h [] (by simp)
  induction pairs with
  | nil => intro acc hacc; exact hacc
  | cons p rest ih =>
    intro acc hacc
    exact ih _ (nodup_keys_assocInsert acc p.1 p.2 hacc)

/-- C10: in both output token maps of `resolve_all`, each claim name has at
most one entry, and its value is the last one emitted for that name in the
plan's iteration order — later insertions overwrite earlier ones. -/
theorem c10_later_insertions_overwrite (config : ScopeConfig) (traits : JValue)
    (cache : ScopeCache) (requested : List Scope) (name : String) :
    (assocLookup (jsonEntries (config.resolve_all traits cache requested).id_token) name =
        (((idTokenPairs config traits cache requested).filter
            (fun p => decide (p.1 = name))).getLast?).map Prod.snd)
    ∧ (assocLookup
          (jsonEntries (config.resolve_all traits cache requested).access_token) name =
        (((accessTokenPairs config traits cache requested).filter
            (fun p => decide (p.1 = name))).getLast?).map Prod.snd)
    ∧ ((jsonEntries (config.resolve_all traits cache requested).id_token).map
        Prod.fst).Nodup
    ∧ ((jsonEntries (config.resolve_all traits cache requested).access_token).map
        Prod.fst).Nodup := by
  refine ⟨?_, ?_, ?_, ?_⟩
  · exact assocLookup_mapCollect _ name
  · exact assocLookup_mapCollect _ name
  · exact nodup_keys_mapCollect _
  · exact nodup_keys_mapCollect _

/-! ## Compilation precedence (C3) -/

theorem assocLookup_foldl_guarded_insert {α β γ : Type} [DecidableEq α]
    (l : List γ) (key : γ → α) (val : γ → β) (k : α) (v : β) :
    ∀ init : List (α × β), assocLookup init k = some v →
      assocLookup
        (l.foldl
          (fun acc x =>
            if (assocLookup acc (key x)).isSome then acc
            else assocInsert acc (key x) (val x))
          init) k = some v := by
  induction l with
  | nil => intro init h; exact h
  | cons x rest ih =>
    intro init h
    rw [List.foldl_cons]
    apply ih
    by_cases hc : (assocLookup init (key x)).isSome
    · simp only [if_pos hc]
      exact h
    · simp only [if_neg hc]
      have hne : k ≠ key x := by
        intro he
        rw [← he, h] at hc
        simp at hc
      rw [assocLookup_assocInsert_ne init (key x) k (val x) hne]
      exact h

theorem find_scope_insert_implicit_preserved (config : ScopeConfig) (cache : ScopeCache)
    (scope : Scope) (rule : ScopeConfiguration)
    (h : assocLookup config.scopes scope = some rule) :
    assocLookup (config.insert_implicit_mapping cache).scopes scope = some rule := by
  unfold ScopeConfig.insert_implicit_mapping
  exact assocLookup_foldl_guarded_insert cache.implicit_scopes.entries
    (fun e => e.1)
    (fun e => .implicit ⟨.first, ⟨some e.1.val, some e.1.val⟩⟩)
    scope rule config.scopes h

theorem insert_direct_mapping_fst_fold (properties : List (String × SchemaObject)) :
    ∀ (config : ScopeConfig) (cache : ScopeCache),
      (properties.foldl
        (fun state entry =>
          let scope : Scope := ⟨entry.1⟩
          if (assocLookup state.1.scopes scope).isSome then state
          else
            (⟨assocInsert state.1.scopes scope
                (.implicit ⟨.first, ⟨some entry.1, some entry.1⟩⟩)⟩,
             ⟨state.2.implicit_scopes.insert scope ⟨[entry.1]⟩⟩))
        (config, cache)).1.scopes =
      properties.foldl
        (fun scopes entry =>
          if (assocLookup scopes (Scope.mk entry.1)).isSome then scopes
          else assocInsert scopes (Scope.mk entry.1)
            (.implicit ⟨.first, ⟨some entry.1, some entry.1⟩⟩))
        config.scopes := by
  induction properties with
  | nil => intro config cache; rfl
  | cons e rest ih =>
    intro config cache
    rw [List.foldl_cons, List.foldl_cons]
    by_cases hc : (assocLookup config.scopes (Scope.mk e.1)).isSome
    · simp only [if_pos hc]
      exact ih config cache
    · simp only [if_neg hc]
      exact ih _ _

theorem find_scope_insert_direct_preserved (config : ScopeConfig) (schema : SchemaObject)
    (cache : ScopeCache) (scope : Scope) (rule : ScopeConfiguration)
    (h : assocLookup config.scopes scope = some rule) :
    assocLookup (config.insert_direct_mapping schema cache).1.scopes scope = some rule := by
  rcases schema with ⟨object, extensions⟩
  cases object with
  | none => exact h
  | some properties =>
    show assocLookup
      (ScopeConfig.insert_direct_mapping config (.mk (some properties) extensions)
        cache).1.scopes scope = some rule
    unfold ScopeConfig.insert_direct_mapping
    rw [show SchemaObject.object (.mk (some properties) extensions) = some properties
      from rfl]
    rw [insert_direct_mapping_fst_fold properties config cache]
    exact assocLookup_foldl_guarded_insert properties
      (fun e => Scope.mk e.1)
      (fun e => .implicit ⟨.first, ⟨some e.1, some e.1⟩⟩)
      scope rule config.scopes h

/-- C3: compilation precedence is strict — a scope rule declared in the root
configuration survives both default passes unchanged, and any rule present
after the implicit-index default pass (so in particular a rule that pass
inserted) is never replaced by the direct-mapping pass. -/
theorem c3_precedence (keyword : String) (schema : SchemaObject) (cache : ScopeCache)
    (direct_mapping : Bool) (scope : Scope) (rule : ScopeConfiguration) :
    (assocLookup (ScopeConfig.create keyword schema).scopes scope = some rule →
        assocLookup
          (ScopeConfig.from_root keyword schema cache direct_mapping).1.scopes scope =
          some rule)
    ∧ (assocLookup
          ((ScopeConfig.create keyword schema).insert_implicit_mapping cache).scopes
            scope = some rule →
        assocLookup
          (ScopeConfig.from_root keyword schema cache direct_mapping).1.scopes scope =
          some rule) := by
  have hstage2 : assocLookup
      ((ScopeConfig.create keyword schema).insert_implicit_mapping cache).scopes scope =
        some rule →
      assocLookup
        (ScopeConfig.from_root keyword schema cache direct_mapping).1.scopes scope =
        some rule := by
    intro h2
    unfold ScopeConfig.from_root
    cases direct_mapping with
    | false => exact h2
    | true =>
      simp only [if_true]
      exact find_scope_insert_direct_preserved _ schema cache scope rule h2
  refine ⟨?_, hstage2⟩
  intro h1
  exact hstage2 (find_scope_insert_implicit_preserved _ cache scope rule h1)

/-- C3 witness: a declared rule and an implicit-pass rule both survive
`from_root` with direct mapping enabled, on a concrete schema whose root
extension declares scope `s`, whose implicit index contains `s` and `t`,
and whose first-level properties are `s` and `t`. -/
theorem c3_precedence_witness :
    (assocLookup
        (ScopeConfig.create "k"
          (.mk (some [("s", .mk none []), ("t", .mk none [])])
            [("k", .obj [("scopes", .obj [("s", .obj [("type", .str "implicit"),
              ("collect", .str "all"),
              ("session_data", .obj [("id_token", .str "sid"),
                ("access_token", .null)])])])])])).scopes ⟨"s"⟩ =
        some (.implicit ⟨.all, ⟨some "sid", none⟩⟩)) ∧
      (assocLookup
          (ScopeConfig.from_root "k"
            (.mk (some [("s", .mk none []), ("t", .mk none [])])
              [("k", .obj [("scopes", .obj [("s", .obj [("type", .str "implicit"),
                ("collect", .str "all"),
                ("session_data", .obj [("id_token", .str "sid"),
                  ("access_token", .null)])])])])])
            ⟨⟨[(⟨"t"⟩, [⟨["t", "x"]⟩])]⟩⟩ true).1.scopes ⟨"s"⟩ =
        some (.implicit ⟨.all, ⟨some "sid", none⟩⟩)) ∧
      (assocLookup
          ((ScopeConfig.create "k"
            (.mk (some [("s", .mk none []), ("t", .mk none [])])
              [("k", .obj [("scopes", .obj [("s", .obj [("type", .str "implicit"),
                ("collect", .str "all"),
                ("session_data", .obj [("id_token", .str "sid"),
                  ("access_token", .null)])])])])])).insert_implicit_mapping
            ⟨⟨[(⟨"t"⟩, [⟨["t", "x"]⟩])]⟩⟩).scopes ⟨"t"⟩ =
        some (.implicit ⟨.first, ⟨some "t", some "t"⟩⟩)) ∧
      (assocLookup
          (ScopeConfig.from_root "k"
            (.mk (some [("s", .mk none []), ("t", .mk none [])])
              [("k", .obj [("scopes", .obj [("s", .obj [("type", .str "implicit"),
                ("collect", .str "all"),
                ("session_data", .obj [("id_token", .str "sid"),
                  ("access_token", .null)])])])])])
            ⟨⟨[(⟨"t"⟩, [⟨["t", "x"]⟩])]⟩⟩ true).1.scopes ⟨"t"⟩ =
        some (.implicit ⟨.first, ⟨some "t", some "t"⟩⟩)) :=
  ⟨rfl,
   (c3_precedence "k"
       (.mk (some [("s", .mk none []), ("t", .mk none [])])
         [("k", .obj [("scopes", .obj [("s", .obj [("type", .str "implicit"),
           ("collect", .str "all"),
           ("session_data", .obj [("id_token", .str "sid"),
             ("access_token", .null)])])])])])
       ⟨⟨[(⟨"t"⟩, [⟨["t", "x"]⟩])]⟩⟩ true ⟨"s"⟩
       (.implicit ⟨.all, ⟨some "sid", none⟩⟩)).1 rfl,
   rfl,
   (c3_precedence "k"
       (.mk (some [("s", .mk none []), ("t", .mk none [])])
         [("k", .obj [("scopes", .obj [("s", .obj [("type", .str "implicit"),
           ("collect", .str "all"),
           ("session_data", .obj [("id_token", .str "sid"),
             ("access_token", .null)])])])])])
       ⟨⟨[(⟨"t"⟩, [⟨["t", "x"]⟩])]⟩⟩ true ⟨"t"⟩
       (.implicit ⟨.first, ⟨some "t", some "t"⟩⟩)).2 rfl⟩

/-! ## Scanner registration order (C4) and malformed extensions (C7) -/

theorem getD_insert (cache : ImplicitScopeCache) (sc : Scope) (ptr : Pointer)
    (s : Scope) :
    (cache.insert sc ptr).getD s = cache.getD s ++ (if s = sc then [ptr] else []) := by
  show (assocLookup (extendEntry cache.entries sc [ptr]) s).getD [] = _
  rw [getD_extendEntry]
  rfl

theorem getD_foldl_insert (scopes : List Scope) (ptr : Pointer) (s : Scope) :
    ∀ acc : ImplicitScopeCache,
      (scopes.foldl (fun a sc => a.insert sc ptr) acc).getD s =
        acc.getD s ++ (scopes.filter (fun sc => decide (sc = s))).map (fun _ => ptr) := by
  induction scopes with
  | nil => intro acc; simp
  | cons sc rest ih =>
    intro acc
    rw [List.foldl_cons, ih, getD_insert, List.filter_cons]
    by_cases h : sc = s
    · subst h
      simp [List.append_assoc]
    · have h' : ¬s = sc := fun he => h he.symm
      simp [h, h']

theorem find_eq (keyword : String) (object : Option (List (String × SchemaObject)))
    (extensions : List (String × JValue)) (path : List String) :
    ImplicitScope.find keyword (.mk object extensions) path =
      (match lookupJson extensions keyword with
       | some extension =>
         match parseTraitConfiguration extension with
         | some value =>
           value.scopes.foldl (fun acc sc => acc.insert sc ⟨path⟩)
             (object_contribution keyword (.mk object extensions) path)
         | none => object_contribution keyword (.mk object extensions) path
       | none => object_contribution keyword (.mk object extensions) path) := by
  cases object <;> rfl

theorem getD_find (keyword : String) (schema : SchemaObject) (path : List String)
    (scope : Scope) :
    (ImplicitScope.find keyword schema path).getD scope =
      (object_contribution keyword schema path).getD scope ++
        extension_contribution keyword schema path scope := by
  rcases schema with ⟨object, extensions⟩
  rw [find_eq]
  have hec : extension_contribution keyword (.mk object extensions) path scope =
      (match lookupJson extensions keyword with
       | some extension =>
         match parseTraitConfiguration extension with
         | some value =>
           (value.scopes.filter (fun sc => decide (sc = scope))).map
             (fun _ => (⟨path⟩ : Pointer))
         | none => []
       | none => []) := rfl
  rw [hec]
  cases hext : lookupJson extensions keyword with
  | none =>
    show (object_contribution keyword (.mk object extensions) path).getD scope =
      (object_contribution keyword (.mk object extensions) path).getD scope ++ []
    rw [List.append_nil]
  | some extension =>
    show (match parseTraitConfiguration extension with
         | some value =>
           value.scopes.foldl
             (fun (acc : ImplicitScopeCache) sc => acc.insert sc ⟨path⟩)
             (object_contribution keyword (.mk object extensions) path)
         | none => object_contribution keyword (.mk object extensions) path).getD scope =
      (object_contribution keyword (.mk object extensions) path).getD scope ++
        (match parseTraitConfiguration extension with
         | some value =>
           (value.scopes.filter (fun sc => decide (sc = scope))).map
             (fun _ => (⟨path⟩ : Pointer))
         | none => [])
    cases hpt : parseTraitConfiguration extension with
    | none =>
      show (object_contribution keyword (.mk object extensions) path).getD scope =
        (object_contribution keyword (.mk object extensions) path).getD scope ++ []
      rw [List.append_nil]
    | some value =>
      exact getD_foldl_insert value.scopes ⟨path⟩ scope _

/-- C4 (amended): at every node the scanner first merges the index gathered
from the node's declared properties and only then registers the current
path's pointer for every scope listed in the node's (successfully parsed)
extension — so the pointer list of a scope annotated at both a node and one
of its descendants contains the descendant's pointer before the node's
own. -/
theorem c4_scanner_order (keyword : String) (schema : SchemaObject)
    (path : List String) (scope : Scope) :
    (ImplicitScope.find keyword schema path).getD scope =
      (object_contribution keyword schema path).getD scope ++
        extension_contribution keyword schema path scope :=
  getD_find keyword schema path scope

/-- C4 counterexample: a schema annotated for scope `s` both at the root
(path ``) and at property `a` (path `/a`) produces the pointer list
`[/a, ]` — the descendant's pointer strictly before the node's own, not
after it as the claim states. -/
theorem c4_counterexample :
    (ImplicitScope.find "k"
        (.mk (some [("a", .mk none [("k", .obj [("scopes", .arr [.str "s"])])])])
          [("k", .obj [("scopes", .arr [.str "s"])])])
        []).getD ⟨"s"⟩ = [⟨["a"]⟩, ⟨[]⟩] ∧
      ([⟨["a"]⟩, ⟨[]⟩] : List Pointer).indexOf ⟨[]⟩ = 1 ∧
      ([⟨["a"]⟩, ⟨[]⟩] : List Pointer).indexOf ⟨["a"]⟩ = 0 ∧
      ([⟨["a"]⟩, ⟨[]⟩] : List Pointer) ≠ [⟨[]⟩, ⟨["a"]⟩] :=
  ⟨rfl, by decide, by decide, by decide⟩

theorem assocLookup_filter_self_none {α β : Type} [DecidableEq α]
    (l : List (α × β)) (k : α) :
    assocLookup (l.filter (fun e => !decide (e.1 = k))) k = none := by
  induction l with
  | nil => rfl
  | cons e rest ih =>
    obtain ⟨k', v'⟩ := e
    rw [List.filter_cons]
    by_cases h : k' = k
    · have hb : (!decide (k' = k)) = false := by simp [h]
      rw [hb]
      simp only [Bool.false_eq_true, if_false]
      exact ih
    · have hb : (!decide (k' = k)) = true := by simp [h]
      rw [hb, if_pos rfl]
      simp only [assocLookup, if_neg h]
      exact ih

/-- C7: the scan never fails — a node whose extension value does not parse
as a trait configuration contributes nothing, and the resulting implicit
index is exactly the one produced when that extension is absent; traversal
of the node's properties (and hence of sibling nodes) is unaffected. -/
theorem c7_malformed_extension (keyword : String) (schema : SchemaObject)
    (path : List String) (extension : JValue)
    (hlook : lookupJson schema.extensions keyword = some extension)
    (hparse : parseTraitConfiguration extension = none) :
    ImplicitScope.find keyword schema path =
      ImplicitScope.find keyword (removeExtension keyword schema) path := by
  rcases schema with ⟨object, extensions⟩
  have hlook' : lookupJson extensions keyword = some extension := hlook
  rw [show removeExtension keyword (.mk object extensions) =
    .mk object (extensions.filter (fun e => !decide (e.1 = keyword))) from rfl]
  rw [find_eq, find_eq]
  simp only [hlook', hparse,
    show lookupJson (extensions.filter (fun e => !decide (e.1 = keyword))) keyword = none
      from assocLookup_filter_self_none extensions keyword]
  rfl

/-- C7 witness: a malformed extension (`"bad"` is not an object) at the root
of a concrete schema leaves the scan exactly as if the extension were
absent. -/
theorem c7_malformed_extension_witness :
    (lookupJson
        (SchemaObject.extensions
          (.mk (some [("a", .mk none [("k", .obj [("scopes", .arr [.str "s"])])])])
            [("k", .str "bad")])) "k" = some (.str "bad")) ∧
      parseTraitConfiguration (.str "bad") = none ∧
      ImplicitScope.find "k"
          (.mk (some [("a", .mk none [("k", .obj [("scopes", .arr [.str "s"])])])])
            [("k", .str "bad")]) [] =
        ImplicitScope.find "k"
          (removeExtension "k"
            (.mk (some [("a", .mk none [("k", .obj [("scopes", .arr [.str "s"])])])])
              [("k", .str "bad")])) [] :=
  ⟨rfl, rfl,
   c7_malformed_extension "k"
     (.mk (some [("a", .mk none [("k", .obj [("scopes", .arr [.str "s"])])])])
       [("k", .str "bad")])
     [] (.str "bad") rfl rfl⟩

/-! ## Accepted configuration shape (C2) -/

/-- C2 counterexample: the JSON shape the spec documents — the session data
under the key `sessionData` with claim names under `idToken` and
`accessToken` — is rejected by deserialization, because the required
`session_data` field is then missing. -/
theorem c2_counterexample :
    parseScopeConfiguration
        (.obj [("type", .str "implicit"), ("collect", .str "first"),
          ("sessionData",
            .obj [("idToken", .str "email"), ("accessToken", .null)])]) = none := rfl

/-- C2 (amended): an implicit scope rule deserializes from
`{"type": "implicit", "collect": "first"|"last"|"any"|"all",
"session_data": {"id_token": <claim-name or null>,
"access_token": <claim-name or null>}}` — the session-data object is stored
under the snake_case key `session_data` and its two claim names under
`id_token` and `access_token`; only the rule tag and the collect variants
use camelCase names. -/
theorem c2_accepted_shape (cv iv av : JValue) (collect : Collect)
    (idTok accTok : Option String)
    (hc : parseCollect cv = some collect)
    (hi : parseOptionString iv = some idTok)
    (ha : parseOptionString av = some accTok) :
    parseScopeConfiguration
        (.obj [("type", .str "implicit"), ("collect", cv),
          ("session_data", .obj [("id_token", iv), ("access_token", av)])]) =
      some (.implicit ⟨collect, ⟨idTok, accTok⟩⟩) := by
  simp [parseScopeConfiguration, parseImplicitFields, parseSessionData,
    parseOptionStringField, lookupJson, assocLookup, hc, hi, ha]

/-- C2 witness: the snake_case shape with `collect = "first"`, a string
id_token claim and a null access_token claim is accepted. -/
theorem c2_accepted_shape_witness :
    parseCollect (.str "first") = some .first ∧
      parseOptionString (.str "email") = some (some "email") ∧
      parseOptionString .null = some none ∧
      parseScopeConfiguration
          (.obj [("type", .str "implicit"), ("collect", .str "first"),
            ("session_data",
              .obj [("id_token", .str "email"), ("access_token", .null)])]) =
        some (.implicit ⟨.first, ⟨some "email", none⟩⟩) :=
  ⟨rfl, rfl, rfl,
   c2_accepted_shape (.str "first") (.str "email") .null .first (some "email") none
     rfl rfl rfl⟩

/-! ## Schema-cache fetch contract (C9) -/

/-- C9: a fetch for a schema id already present returns the stored compiled
schema, consults nothing external and leaves the cache unchanged; a fetch
for an absent id invokes the fetch-and-compile function, stores its result
under the id and returns the stored value; and no call removes or replaces
an entry that was present when the call began. -/
theorem c9_fetch_contract (data : SchemaCacheData)
    (fetch_fn : SchemaId → Except FetchError (ScopeCache × ScopeConfig))
    (id : SchemaId) :
    (SchemaCache.contains_key data id = true →
        SchemaCache.fetch data fetch_fn id =
            (.ok (SchemaCache.get_or_panic data id), data)
          ∧ ∀ g : SchemaId → Except FetchError (ScopeCache × ScopeConfig),
              SchemaCache.fetch data fetch_fn id = SchemaCache.fetch data g id)
    ∧ (SchemaCache.contains_key data id = false →
        (∀ e : FetchError, fetch_fn id = .error e →
            SchemaCache.fetch data fetch_fn id = (.error e, data))
          ∧ ∀ (cache : ScopeCache) (config : ScopeConfig),
              fetch_fn id = .ok (cache, config) →
                SchemaCache.fetch data fetch_fn id =
                    (.ok ⟨cache, config⟩, SchemaCache.insert data id ⟨cache, config⟩)
                  ∧ assocLookup (SchemaCache.insert data id ⟨cache, config⟩) id =
                      some ⟨cache, config⟩)
    ∧ ∀ (id' : SchemaId) (schema : Schema), assocLookup data id' = some schema →
        assocLookup (SchemaCache.fetch data fetch_fn id).2 id' = some schema := by
  refine ⟨?_, ?_, ?_⟩
  · intro hhit
    constructor
    · unfold SchemaCache.fetch
      rw [if_pos hhit]
    · intro g
      unfold SchemaCache.fetch
      rw [if_pos hhit, if_pos hhit]
  · intro hmiss
    constructor
    · intro e herr
      unfold SchemaCache.fetch
      rw [if_neg (by rw [hmiss]; simp), herr]
    · intro cache config hok
      unfold SchemaCache.fetch
      rw [if_neg (by rw [hmiss]; simp), hok]
      refine ⟨?_, assocLookup_assocInsert_self data id ⟨cache, config⟩⟩
      show (Except.ok (SchemaCache.get_or_panic (SchemaCache.insert data id
        ⟨cache, config⟩) id), _) = _
      unfold SchemaCache.get_or_panic SchemaCache.insert
      rw [assocLookup_assocInsert_self]
      rfl
  · intro id' schema hstored
    by_cases hhit : SchemaCache.contains_key data id = true
    · unfold SchemaCache.fetch
      rw [if_pos hhit]
      exact hstored
    · have hmiss : SchemaCache.contains_key data id = false := by
        rcases hb : SchemaCache.contains_key data id
        · rfl
        · exact absurd hb hhit
      have hnone : assocLookup data id = none := by
        unfold SchemaCache.contains_key at hmiss
        rcases hv : assocLookup data id
        · rfl
        · rw [hv] at hmiss; simp at hmiss
      have hne : id' ≠ id := by
        intro he
        rw [he, hnone] at hstored
        exact absurd hstored (by simp)
      unfold SchemaCache.fetch
      rw [if_neg (by rw [hmiss]; simp)]
      rcases hf : fetch_fn id with e | pair
      · exact hstored
      · obtain ⟨cache, config⟩ := pair
        show assocLookup (SchemaCache.insert data id ⟨cache, config⟩) id' = some schema
        unfold SchemaCache.insert
        rw [assocLookup_assocInsert_ne data id id' ⟨cache, config⟩ hne]
        exact hstored

/-- C9 witness: a concrete cache holding schema id `a`; a hit on `a` returns
the stored schema and changes nothing, a miss on `b` invokes the fetch
function, stores and returns the result, and the entry for `a` survives
the miss. -/
theorem c9_fetch_contract_witness :
    (SchemaCache.contains_key [((⟨"a"⟩ : SchemaId), (⟨⟨⟨[]⟩⟩, ⟨[]⟩⟩ : Schema))] ⟨"a"⟩ =
        true) ∧
      SchemaCache.fetch [((⟨"a"⟩ : SchemaId), (⟨⟨⟨[]⟩⟩, ⟨[]⟩⟩ : Schema))]
          (fun _ => .error .kratos) ⟨"a"⟩ =
        (.ok (SchemaCache.get_or_panic [((⟨"a"⟩ : SchemaId), (⟨⟨⟨[]⟩⟩, ⟨[]⟩⟩ : Schema))]
            ⟨"a"⟩),
          [((⟨"a"⟩ : SchemaId), (⟨⟨⟨[]⟩⟩, ⟨[]⟩⟩ : Schema))]) ∧
      (SchemaCache.contains_key [((⟨"a"⟩ : SchemaId), (⟨⟨⟨[]⟩⟩, ⟨[]⟩⟩ : Schema))] ⟨"b"⟩ =
        false) ∧
      (((fun _ => .ok (⟨⟨[(⟨"s"⟩, [⟨["s"]⟩])]⟩⟩, ⟨[]⟩)) :
            SchemaId → Except FetchError (ScopeCache × ScopeConfig)) ⟨"b"⟩ =
        .ok (⟨⟨[(⟨"s"⟩, [⟨["s"]⟩])]⟩⟩, ⟨[]⟩)) ∧
      SchemaCache.fetch [((⟨"a"⟩ : SchemaId), (⟨⟨⟨[]⟩⟩, ⟨[]⟩⟩ : Schema))]
          (fun _ => .ok (⟨⟨[(⟨"s"⟩, [⟨["s"]⟩])]⟩⟩, ⟨[]⟩)) ⟨"b"⟩ =
        (.ok ⟨⟨⟨[(⟨"s"⟩, [⟨["s"]⟩])]⟩⟩, ⟨[]⟩⟩,
          SchemaCache.insert [((⟨"a"⟩ : SchemaId), (⟨⟨⟨[]⟩⟩, ⟨[]⟩⟩ : Schema))] ⟨"b"⟩
            ⟨⟨⟨[(⟨"s"⟩, [⟨["s"]⟩])]⟩⟩, ⟨[]⟩⟩) ∧
      (assocLookup [((⟨"a"⟩ : SchemaId), (⟨⟨⟨[]⟩⟩, ⟨[]⟩⟩ : Schema))] ⟨"a"⟩ =
        some ⟨⟨⟨[]⟩⟩, ⟨[]⟩⟩) ∧
      assocLookup
          (SchemaCache.fetch [((⟨"a"⟩ : SchemaId), (⟨⟨⟨[]⟩⟩, ⟨[]⟩⟩ : Schema))]
            (fun _ => .ok (⟨⟨[(⟨"s"⟩, [⟨["s"]⟩])]⟩⟩, ⟨[]⟩)) ⟨"b"⟩).2 ⟨"a"⟩ =
        some ⟨⟨⟨[]⟩⟩, ⟨[]⟩⟩ :=
  ⟨rfl,
   ((c9_fetch_contract [((⟨"a"⟩ : SchemaId), (⟨⟨⟨[]⟩⟩, ⟨[]⟩⟩ : Schema))]
       (fun _ => .error .kratos) ⟨"a"⟩).1 rfl).1,
   rfl,
   rfl,
   (((c9_fetch_contract [((⟨"a"⟩ : SchemaId), (⟨⟨⟨[]⟩⟩, ⟨[]⟩⟩ : Schema))]
       (fun _ => .ok (⟨⟨[(⟨"s"⟩, [⟨["s"]⟩])]⟩⟩, ⟨[]⟩)) ⟨"b"⟩).2.1 rfl).2
     ⟨⟨[(⟨"s"⟩, [⟨["s"]⟩])]⟩⟩ ⟨[]⟩ rfl).1,
   rfl,
   (c9_fetch_contract [((⟨"a"⟩ : SchemaId), (⟨⟨⟨[]⟩⟩, ⟨[]⟩⟩ : Schema))]
       (fun _ => .ok (⟨⟨[(⟨"s"⟩, [⟨["s"]⟩])]⟩⟩, ⟨[]⟩)) ⟨"b"⟩).2.2 ⟨"a"⟩ ⟨⟨⟨[]⟩⟩, ⟨[]⟩⟩
     rfl⟩

end HKC
